import Mathlib

/-!
Shallow embedding of the fast_ligru CUDA core (Li-GRU forward and backward
passes) and verification of its specification.

Device buffers are modelled as total functions `ℕ → ℝ` (flat memory) or
`ℕ → ℕ → ℝ` (one flat row per time step, matching the `ptr + i * stride`
row slicing of the source).  Machine floating point is modelled by real
arithmetic.  Each kernel is translated from its source file; parts of the
repository that are referenced but not present in the corpus
(`inline_ops.h`, `ligru_1_0_forward_gpu.cu.cc`) are modelled from the spec
and marked as such in their doc comments.
-/

set_option maxHeartbeats 1000000

noncomputable section

/-- Modelled from the spec: the logistic sigmoid used by every gate kernel
(`inline_ops.h` is not in the corpus). -/
def sigmoid (x : ℝ) : ℝ := 1 / (1 + Real.exp (-x))

/-- Modelled from the spec: the relu candidate activation
(`inline_ops.h` is not in the corpus). -/
def relu (x : ℝ) : ℝ := max x 0

/-- Modelled from the spec: the leaky relu candidate activation with
negative slope α; the spec leaves α unspecified, we fix the conventional
0.01 (`inline_ops.h` is not in the corpus). -/
def leaky_relu (x : ℝ) : ℝ := if 0 < x then x else 0.01 * x

/-- Modelled from the spec: exact derivative of relu
(`inline_ops.h` is not in the corpus). -/
def d_relu (x : ℝ) : ℝ := if 0 < x then 1 else 0

/-- Modelled from the spec: exact derivative of leaky relu
(`inline_ops.h` is not in the corpus). -/
def d_leaky_relu (x : ℝ) : ℝ := if 0 < x then 1 else 0.01

/-- Modelled from the spec: exact derivative of tanh
(`inline_ops.h` is not in the corpus). -/
def d_tanh (x : ℝ) : ℝ := 1 - Real.tanh x ^ 2

/-- Modelled from the spec: exact derivative of sin
(`inline_ops.h` is not in the corpus). -/
def d_sin (x : ℝ) : ℝ := Real.cos x

/-- Shared body of the four forward pointwise kernels of
`ligru_2_0_forward_gpu.cu.cc` (lines 29-176); the four kernels differ only
in the candidate activation `f`.  A thread with `row = j < hidden_dim` and
`col = b < batch_dim` reads `wx`/`uh` at `weight_idx = b*2H + j` (slot 0,
the pre-activation `a`) and `weight_idx + H` (slot 1, the update gate `z`),
writes `h_out` at `output_idx = b*H + j`, and, when `Training`, writes
`(a, z, hcand)` into `v` at `b*3H + j + {0, H, 2H}`.  The first component
is the updated `h_out` buffer, the second the updated cache `v`. -/
def pointwiseKernelFwd (f : ℝ → ℝ) (training : Bool) (B H : ℕ)
    (wx uh h h_out v : ℕ → ℝ) : (ℕ → ℝ) × (ℕ → ℝ) :=
  (fun idx =>
    if idx < B * H then
      let b := idx / H
      let j := idx % H
      let z := sigmoid (wx (b * (2 * H) + H + j) + uh (b * (2 * H) + H + j))
      let a := wx (b * (2 * H) + j) + uh (b * (2 * H) + j)
      z * h (b * H + j) + (1 - z) * f a
    else h_out idx,
   fun idx =>
    if training then
      if idx < B * (3 * H) then
        let b := idx / (3 * H)
        let r := idx % (3 * H)
        if r < H then
          wx (b * (2 * H) + r) + uh (b * (2 * H) + r)
        else if r < 2 * H then
          sigmoid (wx (b * (2 * H) + r) + uh (b * (2 * H) + r))
        else
          f (wx (b * (2 * H) + (r - 2 * H)) + uh (b * (2 * H) + (r - 2 * H)))
      else v idx
    else v idx)

namespace ligru_2_0_forward

/-- Translated from `ligru_2_0_forward_gpu.cu.cc` lines 29-65. -/
def PointwiseOperationsReLU (training : Bool) (B H : ℕ)
    (wx uh h h_out v : ℕ → ℝ) : (ℕ → ℝ) × (ℕ → ℝ) :=
  pointwiseKernelFwd relu training B H wx uh h h_out v

/-- Translated from `ligru_2_0_forward_gpu.cu.cc` lines 67-103. -/
def PointwiseOperationsLeakyReLU (training : Bool) (B H : ℕ)
    (wx uh h h_out v : ℕ → ℝ) : (ℕ → ℝ) × (ℕ → ℝ) :=
  pointwiseKernelFwd leaky_relu training B H wx uh h h_out v

/-- Translated from `ligru_2_0_forward_gpu.cu.cc` lines 105-139. -/
def PointwiseOperationsTanh (training : Bool) (B H : ℕ)
    (wx uh h h_out v : ℕ → ℝ) : (ℕ → ℝ) × (ℕ → ℝ) :=
  pointwiseKernelFwd Real.tanh training B H wx uh h h_out v

/-- Translated from `ligru_2_0_forward_gpu.cu.cc` lines 141-176. -/
def PointwiseOperationsSin (training : Bool) (B H : ℕ)
    (wx uh h h_out v : ℕ → ℝ) : (ℕ → ℝ) × (ℕ → ℝ) :=
  pointwiseKernelFwd Real.sin training B H wx uh h h_out v

/-- Translated from the recurrent-projection GEMM of
`ForwardPass::IterateInternal` (`ligru_2_0_forward_gpu.cu.cc` lines
244-246): column-major `tmp_uh = u * h` with `m = 2H`, `n = B`, `k = H`,
`beta = 0`, i.e. `tmp_uh[b*2H + l] = Σ_{k<H} u[k*2H + l] * h[b*H + k]`;
entries outside the written `B × 2H` region keep their old value. -/
def gemmUH (B H : ℕ) (u h tmp_uh : ℕ → ℝ) : ℕ → ℝ :=
  fun idx =>
    if idx < B * (2 * H) then
      ∑ k ∈ Finset.range H,
        u (k * (2 * H) + idx % (2 * H)) * h (idx / (2 * H) * H + k)
    else tmp_uh idx

/-- Translated from `ForwardPass::IterateInternal`
(`ligru_2_0_forward_gpu.cu.cc` lines 229-282): the recurrent projection is
computed into the step's `tmp_uh` slice, normalized by the layer-norm
co-pass (abstracted as the parameter `norm`, standing for
`layer_norm1.RunPartial` writing `tmp_uh_norm`), and the pointwise kernel
selected by `(training, activation)` is launched.  Note that the
`training = false` branch dispatches only activations 0, 1 and 3; on any
other value no kernel is launched and `(h_out, v)` are left untouched. -/
def IterateInternal (norm : (ℕ → ℝ) → ℕ → ℝ) (activation : ℕ)
    (training : Bool) (B H : ℕ) (u h h_out v wx tmp_uh : ℕ → ℝ) :
    (ℕ → ℝ) × (ℕ → ℝ) :=
  let uh := norm (gemmUH B H u h tmp_uh)
  if training then
    if activation = 0 then PointwiseOperationsReLU true B H wx uh h h_out v
    else if activation = 1 then
      PointwiseOperationsLeakyReLU true B H wx uh h h_out v
    else if activation = 2 then PointwiseOperationsSin true B H wx uh h h_out v
    else if activation = 3 then PointwiseOperationsTanh true B H wx uh h h_out v
    else (h_out, v)
  else
    if activation = 0 then PointwiseOperationsReLU false B H wx uh h h_out v
    else if activation = 1 then
      PointwiseOperationsLeakyReLU false B H wx uh h h_out v
    else if activation = 3 then
      PointwiseOperationsTanh false B H wx uh h h_out v
    else (h_out, v)

/-- Translated from the loop of `ForwardPass::Run`
(`ligru_2_0_forward_gpu.cu.cc` lines 298-304): iteration `i` hands
`IterateInternal` the slices `h + i*NH` (read), `h + (i+1)*NH` (written),
`v + i*NH*3`, `wx + i*NH*2` and `tmp_uh + i*NH*2`; buffers with a per-step
stride are modelled as row families `ℕ → ℕ → ℝ`.  `RunAux n` is the state
of `(h, v)` after the first `n` iterations. -/
def RunAux (norm : (ℕ → ℝ) → ℕ → ℝ) (activation : ℕ) (training : Bool)
    (B H : ℕ) (wx : ℕ → ℕ → ℝ) (u : ℕ → ℝ) (tmp_uh : ℕ → ℕ → ℝ)
    (h v : ℕ → ℕ → ℝ) : ℕ → (ℕ → ℕ → ℝ) × (ℕ → ℕ → ℝ)
  | 0 => (h, v)
  | n + 1 =>
    let p := RunAux norm activation training B H wx u tmp_uh h v n
    let q := IterateInternal norm activation training B H u (p.1 n)
      (p.1 (n + 1)) (p.2 n) (wx n) (tmp_uh n)
    (Function.update p.1 (n + 1) q.1, Function.update p.2 n q.2)

/-- Translated from `ForwardPass::Run` (`ligru_2_0_forward_gpu.cu.cc`
lines 284-307): the full `seq_length`-step scan. -/
def Run (norm : (ℕ → ℝ) → ℕ → ℝ) (activation : ℕ) (training : Bool)
    (B H T : ℕ) (wx : ℕ → ℕ → ℝ) (u : ℕ → ℝ) (tmp_uh : ℕ → ℕ → ℝ)
    (h v : ℕ → ℕ → ℝ) : (ℕ → ℕ → ℝ) × (ℕ → ℕ → ℝ) :=
  RunAux norm activation training B H wx u tmp_uh h v T

end ligru_2_0_forward

/-- Modelled from the spec (§4.3, §6) and `ligru.cc` lines 16-52: the
`ligru_1_0` forward entry copies `h_init` verbatim into row 0 of the
output sequence and runs the scan; `ligru_1_0_forward_gpu.cu.cc` is not in
the corpus, so its `ForwardPass::Run` is modelled as the `ligru_2_0` scan
(whose loop structure is in the corpus) with the identity normalization,
per §4.2 which makes the layer-norm co-pass optional.  `out0` and `v0` are
the caller-allocated (uninitialised) output and cache buffers, `tmp` the
recurrent-projection scratch. -/
def ligru_1_0_forward (training : Bool) (activation T B H : ℕ)
    (wx : ℕ → ℕ → ℝ) (h_init : ℕ → ℝ) (u : ℕ → ℝ)
    (out0 v0 tmp : ℕ → ℕ → ℝ) : (ℕ → ℕ → ℝ) × (ℕ → ℕ → ℝ) :=
  ligru_2_0_forward.Run id activation training B H T wx u tmp
    (Function.update out0 0 h_init) v0

/-- The returned hidden-state sequence of the `ligru_1_0` forward entry,
as the list of its `T + 1` rows (`ligru.cc` line 30: the output tensor is
allocated with `seq_length + 1` rows). -/
def h_sequence (training : Bool) (activation T B H : ℕ)
    (wx : ℕ → ℕ → ℝ) (h_init : ℕ → ℝ) (u : ℕ → ℝ)
    (out0 v0 tmp : ℕ → ℕ → ℝ) : List (ℕ → ℝ) :=
  List.ofFn fun i : Fin (T + 1) =>
    (ligru_1_0_forward training activation T B H wx h_init u out0 v0 tmp).1 i

/-- Shared body of the four backward pointwise kernels of
`ligru_1_0_backward_gpu.cu.cc` (lines 26-164); the kernels differ only in
the activation derivative `df`.  A thread with `row = j < hidden_dim`,
`col = b < batch_dim` reads the cache `v` at `b*3H + j + {0, H, 2H}`
(`a`, `z`, `hcand`), forms `dh = grad_out + dh_prev` and
`tmp = (1 - z) * dh`, writes `dh_prev[b*H+j] = dh * z`, and stores
`dat = df a * tmp` into `dwx` slot 0 and `dzt = (h - hcand) * z * tmp`
into `dwx` slot 1.  First component: updated `dh_prev`; second: updated
`dwx`. -/
def pointwiseKernelBwd1 (df : ℝ → ℝ) (B H : ℕ)
    (h v dh_prev grad_out dwx : ℕ → ℝ) : (ℕ → ℝ) × (ℕ → ℝ) :=
  (fun idx =>
    if idx < B * H then
      let b := idx / H
      let j := idx % H
      let dh := grad_out (b * H + j) + dh_prev (b * H + j)
      let z := v (b * (3 * H) + H + j)
      dh * z
    else dh_prev idx,
   fun idx =>
    if idx < B * (2 * H) then
      let b := idx / (2 * H)
      let r := idx % (2 * H)
      if r < H then
        let dh := grad_out (b * H + r) + dh_prev (b * H + r)
        let z := v (b * (3 * H) + H + r)
        let a := v (b * (3 * H) + r)
        df a * ((1 - z) * dh)
      else
        let j := r - H
        let dh := grad_out (b * H + j) + dh_prev (b * H + j)
        let z := v (b * (3 * H) + H + j)
        let hcand := v (b * (3 * H) + 2 * H + j)
        (h (b * H + j) - hcand) * z * ((1 - z) * dh)
    else dwx idx)

/-- Shared body of the four backward pointwise kernels of
`ligru_2_0_backward_gpu.cu.cc` (lines 28-162): same reads and writes as
the `ligru_1_0` variant, but with `dat = df a * (1 - z) * dh` and
`dzt = (h - hcand) * dh * (z * (1 - z))`. -/
def pointwiseKernelBwd2 (df : ℝ → ℝ) (B H : ℕ)
    (h v dh_prev grad_out dwx : ℕ → ℝ) : (ℕ → ℝ) × (ℕ → ℝ) :=
  (fun idx =>
    if idx < B * H then
      let b := idx / H
      let j := idx % H
      let dh := grad_out (b * H + j) + dh_prev (b * H + j)
      let z := v (b * (3 * H) + H + j)
      dh * z
    else dh_prev idx,
   fun idx =>
    if idx < B * (2 * H) then
      let b := idx / (2 * H)
      let r := idx % (2 * H)
      if r < H then
        let dh := grad_out (b * H + r) + dh_prev (b * H + r)
        let z := v (b * (3 * H) + H + r)
        let a := v (b * (3 * H) + r)
        df a * (1 - z) * dh
      else
        let j := r - H
        let dh := grad_out (b * H + j) + dh_prev (b * H + j)
        let z := v (b * (3 * H) + H + j)
        let hcand := v (b * (3 * H) + 2 * H + j)
        (h (b * H + j) - hcand) * dh * (z * (1 - z))
    else dwx idx)

namespace ligru_1_0_backward

/-- Translated from `ligru_1_0_backward_gpu.cu.cc` lines 26-59. -/
def PointwiseOperationsReLU (B H : ℕ) (h v dh_prev grad_out dwx : ℕ → ℝ) :
    (ℕ → ℝ) × (ℕ → ℝ) :=
  pointwiseKernelBwd1 d_relu B H h v dh_prev grad_out dwx

/-- Translated from `ligru_1_0_backward_gpu.cu.cc` lines 61-94. -/
def PointwiseOperationsLeakyReLU (B H : ℕ) (h v dh_prev grad_out dwx : ℕ → ℝ) :
    (ℕ → ℝ) × (ℕ → ℝ) :=
  pointwiseKernelBwd1 d_leaky_relu B H h v dh_prev grad_out dwx

/-- Translated from `ligru_1_0_backward_gpu.cu.cc` lines 96-129. -/
def PointwiseOperationsTanh (B H : ℕ) (h v dh_prev grad_out dwx : ℕ → ℝ) :
    (ℕ → ℝ) × (ℕ → ℝ) :=
  pointwiseKernelBwd1 d_tanh B H h v dh_prev grad_out dwx

/-- Translated from `ligru_1_0_backward_gpu.cu.cc` lines 131-164. -/
def PointwiseOperationsSin (B H : ℕ) (h v dh_prev grad_out dwx : ℕ → ℝ) :
    (ℕ → ℝ) × (ℕ → ℝ) :=
  pointwiseKernelBwd1 d_sin B H h v dh_prev grad_out dwx

end ligru_1_0_backward

namespace ligru_2_0_backward

/-- Translated from `ligru_2_0_backward_gpu.cu.cc` lines 28-60. -/
def PointwiseOperationsReLU (B H : ℕ) (h v dh_prev grad_out dwx : ℕ → ℝ) :
    (ℕ → ℝ) × (ℕ → ℝ) :=
  pointwiseKernelBwd2 d_relu B H h v dh_prev grad_out dwx

/-- Translated from `ligru_2_0_backward_gpu.cu.cc` lines 62-94. -/
def PointwiseOperationsLeakyReLU (B H : ℕ) (h v dh_prev grad_out dwx : ℕ → ℝ) :
    (ℕ → ℝ) × (ℕ → ℝ) :=
  pointwiseKernelBwd2 d_leaky_relu B H h v dh_prev grad_out dwx

/-- Translated from `ligru_2_0_backward_gpu.cu.cc` lines 96-128. -/
def PointwiseOperationsTanh (B H : ℕ) (h v dh_prev grad_out dwx : ℕ → ℝ) :
    (ℕ → ℝ) × (ℕ → ℝ) :=
  pointwiseKernelBwd2 d_tanh B H h v dh_prev grad_out dwx

/-- Translated from `ligru_2_0_backward_gpu.cu.cc` lines 130-162. -/
def PointwiseOperationsSin (B H : ℕ) (h v dh_prev grad_out dwx : ℕ → ℝ) :
    (ℕ → ℝ) × (ℕ → ℝ) :=
  pointwiseKernelBwd2 d_sin B H h v dh_prev grad_out dwx

end ligru_2_0_backward

/-- Translated from the recurrent-weight GEMM of
`BackwardPass::IterateInternal` (`ligru_1_0_backward_gpu.cu.cc` lines
284-287): column-major `dh += u_t * dwx` with `m = H`, `n = B`,
`k = 2H`, `beta = 1`, i.e.
`dh[b*H + i] += Σ_{l<2H} u_t[l*H + i] * dwx[b*2H + l]`. -/
def gemmAccum (B H : ℕ) (u dwx dh : ℕ → ℝ) : ℕ → ℝ :=
  fun idx =>
    if idx < B * H then
      dh idx + ∑ l ∈ Finset.range (2 * H),
        u (l * H + idx % H) * dwx (idx / H * (2 * H) + l)
    else dh idx

/-- The activation derivative selected by each `activation` value of the
backward dispatch (`ligru_1_0_backward_gpu.cu.cc` lines 266-282:
0 = relu, 1 = leaky relu, 2 = sin, 3 = tanh). -/
def activationDeriv : ℕ → ℝ → ℝ
  | 0 => d_relu
  | 1 => d_leaky_relu
  | 2 => d_sin
  | _ => d_tanh

namespace ligru_1_0_backward

/-- Translated from `BackwardPass::IterateInternal`
(`ligru_1_0_backward_gpu.cu.cc` lines 250-290): the pointwise kernel
selected by `activation` runs first (writing `dwx` and replacing the
running hidden gradient `dh` by `dh_total * z`), then the recurrent-weight
GEMM accumulates `u_t * dwx` into `dh`.  Returns `(dh, dwx)` after the
step. -/
def IterateInternal (activation B H : ℕ) (u h v grad_out dh dwx : ℕ → ℝ) :
    (ℕ → ℝ) × (ℕ → ℝ) :=
  let q :=
    if activation = 0 then PointwiseOperationsReLU B H h v dh grad_out dwx
    else if activation = 1 then
      PointwiseOperationsLeakyReLU B H h v dh grad_out dwx
    else if activation = 2 then PointwiseOperationsSin B H h v dh grad_out dwx
    else if activation = 3 then PointwiseOperationsTanh B H h v dh grad_out dwx
    else (dh, dwx)
  (gemmAccum B H u q.2 q.1, q.2)

end ligru_1_0_backward

/-- Translated from the sequence-wide recurrent-weight-gradient GEMM of
`BackwardPass::Run` (`ligru_1_0_backward_gpu.cu.cc` lines 321-324 and
`ligru_2_0_backward_gpu.cu.cc` lines 291-294): column-major
`du += dwx * h^T` with `m = 2H`, `n = H`, `k = batch_size * time_step`,
`beta = 1`, over the flattened (time × batch) axis, i.e.
`du[j*2H + i] += Σ_{k<B*T} dwx_flat[k*2H + i] * h_flat[k*H + j]`.
Since `dwx` is laid out `[T, B, 2H]` and `h` `[T+1, B, H]`, the flat
column `k` decodes to time row `k / B`, batch offset `k % B` of the
row-family representation. -/
def duGemm (B H T : ℕ) (dwx h : ℕ → ℕ → ℝ) (du : ℕ → ℝ) : ℕ → ℝ :=
  fun idx =>
    if idx < H * (2 * H) then
      du idx + ∑ k ∈ Finset.range (B * T),
        dwx (k / B) (k % B * (2 * H) + idx % (2 * H)) *
          h (k / B) (k % B * H + idx / (2 * H))
    else du idx

/-- Follows the spec's words (§4.4, §8 "Reduction equivalence"): the
recurrent-weight gradient as the sum over `t = 0 … T-1` of the per-step
outer products `dwx_t · h_t^T`, i.e. T independent per-step
accumulations. -/
def duPerStepSum (B H T : ℕ) (dwx h : ℕ → ℕ → ℝ) (du : ℕ → ℝ) : ℕ → ℝ :=
  fun idx =>
    if idx < H * (2 * H) then
      du idx + ∑ t ∈ Finset.range T, ∑ b ∈ Finset.range B,
        dwx t (b * (2 * H) + idx % (2 * H)) * h t (b * H + idx / (2 * H))
    else du idx

/-- Translated from `ForwardPass::Run` (`ligru_2_0_forward_gpu.cu.cc`
lines 300-304): with `NH = batch_size * hidden_size`, iteration `i` hands
`IterateInternal` the pointer `tmp_uh + i * NH * 2`, whose `B * 2H`
entries the step's recurrent-projection GEMM writes and the gate kernel
reads; this is the set of flat `tmp_uh` offsets step `i` touches. -/
def tmp_uh_region (B H i : ℕ) : Finset ℕ :=
  Finset.Ico (i * (B * H * 2)) (i * (B * H * 2) + B * (2 * H))

/-- Translated from `BackwardPass::Run` of `ligru_1_0_backward_gpu.cu.cc`
(lines 292-327) and `ligru.cc` lines 54-90: the reverse scan processes
steps `i = T-1 … 0`, each step reading `h` row `i`, cache row `i` and
`grad_out` row `i + 1`, then the sequence-wide `du` GEMM runs.
`RunAux n` is the `(dwx, dh)` state after the first `n` reverse steps. -/
def BackRunAux (activation B H T : ℕ) (u : ℕ → ℝ) (h v grad_out : ℕ → ℕ → ℝ)
    (dwx0 : ℕ → ℕ → ℝ) (dh0 : ℕ → ℝ) : ℕ → (ℕ → ℕ → ℝ) × (ℕ → ℝ)
  | 0 => (dwx0, dh0)
  | n + 1 =>
    let p := BackRunAux activation B H T u h v grad_out dwx0 dh0 n
    let q := ligru_1_0_backward.IterateInternal activation B H u
      (h (T - 1 - n)) (v (T - 1 - n)) (grad_out (T - 1 - n + 1)) p.2
      (p.1 (T - 1 - n))
    (Function.update p.1 (T - 1 - n) q.2, q.1)

namespace ligru_1_0_backward

/-- Translated from `BackwardPass::Run`
(`ligru_1_0_backward_gpu.cu.cc` lines 292-327): the full reverse scan
followed by the sequence-wide recurrent-weight-gradient GEMM; returns
`(du, dwx, dh)` as handed back by the `ligru_1_0_backward` entry of
`ligru.cc`. -/
def Run (activation B H T : ℕ) (u : ℕ → ℝ) (h v grad_out : ℕ → ℕ → ℝ)
    (dwx0 : ℕ → ℕ → ℝ) (du0 dh0 : ℕ → ℝ) :
    (ℕ → ℝ) × (ℕ → ℕ → ℝ) × (ℕ → ℝ) :=
  let p := BackRunAux activation B H T u h v grad_out dwx0 dh0 T
  (duGemm B H T p.1 h du0, p.1, p.2)

/-- Translated from `ligru_1_0_backward_gpu.cu.cc` lines 166-197: when the
translation unit is compiled for a device of compute capability below
7.0 (`__CUDA_ARCH__ < 700`), the half-precision instantiation of the
backward relu kernel resolves to the overload whose entire body is
`device_assert_fail`; the architecture guard is modelled as the explicit
`arch` parameter, a hard device abort as `Except.error`, and the
`arch ≥ 700` path by the generic kernel body (real-valued stand-in for
fp16 arithmetic). -/
def PointwiseOperationsReLUHalf (arch B H : ℕ)
    (h v dh_prev grad_out dwx : ℕ → ℝ) :
    Except String ((ℕ → ℝ) × (ℕ → ℝ)) :=
  if arch < 700 then
    Except.error "FP16 is not supported on compute capability < 7.0."
  else Except.ok (pointwiseKernelBwd1 d_relu B H h v dh_prev grad_out dwx)

/-- Translated from `ligru_1_0_backward_gpu.cu.cc` lines 175-181 (see
`PointwiseOperationsReLUHalf`). -/
def PointwiseOperationsLeakyReLUHalf (arch B H : ℕ)
    (h v dh_prev grad_out dwx : ℕ → ℝ) :
    Except String ((ℕ → ℝ) × (ℕ → ℝ)) :=
  if arch < 700 then
    Except.error "FP16 is not supported on compute capability < 7.0."
  else Except.ok (pointwiseKernelBwd1 d_leaky_relu B H h v dh_prev grad_out dwx)

/-- Translated from `ligru_1_0_backward_gpu.cu.cc` lines 183-189 (see
`PointwiseOperationsReLUHalf`). -/
def PointwiseOperationsTanhHalf (arch B H : ℕ)
    (h v dh_prev grad_out dwx : ℕ → ℝ) :
    Except String ((ℕ → ℝ) × (ℕ → ℝ)) :=
  if arch < 700 then
    Except.error "FP16 is not supported on compute capability < 7.0."
  else Except.ok (pointwiseKernelBwd1 d_tanh B H h v dh_prev grad_out dwx)

/-- Translated from `ligru_1_0_backward_gpu.cu.cc` lines 191-196 (see
`PointwiseOperationsReLUHalf`). -/
def PointwiseOperationsSinHalf (arch B H : ℕ)
    (h v dh_prev grad_out dwx : ℕ → ℝ) :
    Except String ((ℕ → ℝ) × (ℕ → ℝ)) :=
  if arch < 700 then
    Except.error "FP16 is not supported on compute capability < 7.0."
  else Except.ok (pointwiseKernelBwd1 d_sin B H h v dh_prev grad_out dwx)

end ligru_1_0_backward

lemma sigmoid_zero : sigmoid 0 = 1 / 2 := by
  simp [sigmoid]
  norm_num

lemma row_idx_lt {b j B H : ℕ} (hb : b < B) (hj : j < H) : b * H + j < B * H := by
  have h1 : (b + 1) * H ≤ B * H := Nat.mul_le_mul_right H hb
  have h2 : (b + 1) * H = b * H + H := by ring
  omega

lemma row_idx_div {b j H : ℕ} (hj : j < H) : (b * H + j) / H = b := by
  rw [Nat.add_comm, Nat.add_mul_div_right j b (by omega : 0 < H),
    Nat.div_eq_of_lt hj, Nat.zero_add]

lemma row_idx_mod {b j H : ℕ} (hj : j < H) : (b * H + j) % H = j := by
  rw [Nat.add_comm, Nat.add_mul_mod_self_right, Nat.mod_eq_of_lt hj]

/-- C1: at every forward time step, for every batch index `b < B` and hidden
index `j < H`, the forward gate kernel reads the update-gate pre-activation
from slot 1 and the candidate pre-activation from slot 0 of the step's input
projection `wx` and recurrent projection `uh`, and writes
`h_out[b,j] = z * h_prev[b,j] + (1 - z) * f a` with `z = sigmoid (wx_z + uh_z)`
and `a = wx_a + uh_a`, for every candidate activation `f`; in particular, for
`T = 1`, `B = 1`, `H = 1`, activation tanh, `wx = [0,0]`, `u = [[0,0]]`,
`h_init = [2]`, the returned `h_1` is `1`. -/
theorem forward_gate_kernel_formula :
    (∀ (f : ℝ → ℝ) (training : Bool) (B H : ℕ) (wx uh h h_out v : ℕ → ℝ)
        (b j : ℕ), b < B → j < H →
      (pointwiseKernelFwd f training B H wx uh h h_out v).1 (b * H + j) =
        sigmoid (wx (b * (2 * H) + H + j) + uh (b * (2 * H) + H + j)) *
            h (b * H + j) +
          (1 - sigmoid (wx (b * (2 * H) + H + j) + uh (b * (2 * H) + H + j))) *
            f (wx (b * (2 * H) + j) + uh (b * (2 * H) + j))) ∧
    (ligru_1_0_forward true 3 1 1 1 (fun _ _ => 0) (fun _ => 2) (fun _ => 0)
        (fun _ _ => 0) (fun _ _ => 0) (fun _ _ => 0)).1 1 0 = 1 := by
  constructor
  · intro f training B H wx uh h h_out v b j hb hj
    have hidx := row_idx_lt hb hj
    have hdiv := row_idx_div (b := b) hj
    have hmod := row_idx_mod (b := b) hj
    simp [pointwiseKernelFwd, hidx, hdiv, hmod]
  · simp [ligru_1_0_forward, ligru_2_0_forward.Run, ligru_2_0_forward.RunAux,
      ligru_2_0_forward.IterateInternal, ligru_2_0_forward.PointwiseOperationsTanh,
      pointwiseKernelFwd, ligru_2_0_forward.gemmUH, Function.update,
      sigmoid_zero, Real.tanh_zero]

lemma bwd1_eq_bwd2 (df : ℝ → ℝ) (B H : ℕ) (h v dh_prev grad_out dwx : ℕ → ℝ) :
    pointwiseKernelBwd1 df B H h v dh_prev grad_out dwx =
      pointwiseKernelBwd2 df B H h v dh_prev grad_out dwx := by
  unfold pointwiseKernelBwd1 pointwiseKernelBwd2
  refine Prod.ext rfl ?_
  funext idx
  simp only
  by_cases h1 : idx < B * (2 * H)
  · by_cases h2 : idx % (2 * H) < H
    · simp only [h1, h2, if_true]
      ring
    · simp only [h1, h2, if_true, if_false]
      ring
  · simp [h1]

/-- C2: on identical inputs (cache, saved hidden state, per-step output
gradient, running hidden gradient), the `ligru_1_0` backward pointwise
kernel (shared temporary `tmp = (1-z)*dh`) and the `ligru_2_0` backward
pointwise kernel (explicit `z*(1-z)` factor) produce identical results —
equal `dat`, equal `dzt`, and the same updated running hidden gradient
`dh * z` — for each of the four activation families. -/
theorem backward_kernel_variants_equal :
    (∀ (B H : ℕ) (h v dh_prev grad_out dwx : ℕ → ℝ),
      ligru_1_0_backward.PointwiseOperationsReLU B H h v dh_prev grad_out dwx =
        ligru_2_0_backward.PointwiseOperationsReLU B H h v dh_prev grad_out dwx) ∧
    (∀ (B H : ℕ) (h v dh_prev grad_out dwx : ℕ → ℝ),
      ligru_1_0_backward.PointwiseOperationsLeakyReLU B H h v dh_prev grad_out dwx =
        ligru_2_0_backward.PointwiseOperationsLeakyReLU B H h v dh_prev grad_out dwx) ∧
    (∀ (B H : ℕ) (h v dh_prev grad_out dwx : ℕ → ℝ),
      ligru_1_0_backward.PointwiseOperationsSin B H h v dh_prev grad_out dwx =
        ligru_2_0_backward.PointwiseOperationsSin B H h v dh_prev grad_out dwx) ∧
    (∀ (B H : ℕ) (h v dh_prev grad_out dwx : ℕ → ℝ),
      ligru_1_0_backward.PointwiseOperationsTanh B H h v dh_prev grad_out dwx =
        ligru_2_0_backward.PointwiseOperationsTanh B H h v dh_prev grad_out dwx) :=
  ⟨fun B H h v dh_prev grad_out dwx =>
      bwd1_eq_bwd2 d_relu B H h v dh_prev grad_out dwx,
   fun B H h v dh_prev grad_out dwx =>
      bwd1_eq_bwd2 d_leaky_relu B H h v dh_prev grad_out dwx,
   fun B H h v dh_prev grad_out dwx =>
      bwd1_eq_bwd2 d_sin B H h v dh_prev grad_out dwx,
   fun B H h v dh_prev grad_out dwx =>
      bwd1_eq_bwd2 d_tanh B H h v dh_prev grad_out dwx⟩

/-- C3: at every backward time step and every `(b, j)` with `b < B`,
`j < H`, the step runs the gate kernel first — which replaces the running
hidden gradient by `(grad_out_t + dh_running) * z` (with `z` the cached
update gate) and stores `dz` into slot 1 and `da` into slot 0 of the
step's `dwx` row — and only then accumulates the recurrent-weight
contribution `u * dwx_t` into the running hidden gradient. -/
theorem backward_step_order_and_slots :
    ∀ activation : ℕ, activation ≤ 3 →
    ∀ (B H : ℕ) (u h v grad_out dh dwx : ℕ → ℝ) (b j : ℕ), b < B → j < H →
      ligru_1_0_backward.IterateInternal activation B H u h v grad_out dh dwx =
        (gemmAccum B H u
            (pointwiseKernelBwd1 (activationDeriv activation) B H h v dh
              grad_out dwx).2
            (pointwiseKernelBwd1 (activationDeriv activation) B H h v dh
              grad_out dwx).1,
          (pointwiseKernelBwd1 (activationDeriv activation) B H h v dh
            grad_out dwx).2) ∧
      (pointwiseKernelBwd1 (activationDeriv activation) B H h v dh grad_out
            dwx).1 (b * H + j) =
        (grad_out (b * H + j) + dh (b * H + j)) * v (b * (3 * H) + H + j) ∧
      (pointwiseKernelBwd1 (activationDeriv activation) B H h v dh grad_out
            dwx).2 (b * (2 * H) + H + j) =
        (h (b * H + j) - v (b * (3 * H) + 2 * H + j)) * v (b * (3 * H) + H + j) *
          ((1 - v (b * (3 * H) + H + j)) *
            (grad_out (b * H + j) + dh (b * H + j))) ∧
      (pointwiseKernelBwd1 (activationDeriv activation) B H h v dh grad_out
            dwx).2 (b * (2 * H) + j) =
        activationDeriv activation (v (b * (3 * H) + j)) *
          ((1 - v (b * (3 * H) + H + j)) *
            (grad_out (b * H + j) + dh (b * H + j))) := by
  intro activation hact B H u h v grad_out dh dwx b j hb hj
  refine ⟨?_, ?_, ?_, ?_⟩
  · interval_cases activation <;> rfl
  · have hidx := row_idx_lt hb hj
    have hdiv := row_idx_div (b := b) hj
    have hmod := row_idx_mod (b := b) hj
    simp [pointwiseKernelBwd1, hidx, hdiv, hmod]
  · have hj2 : H + j < 2 * H := by omega
    have hidx := row_idx_lt hb hj2
    have hdiv := row_idx_div (b := b) hj2
    have hmod := row_idx_mod (b := b) hj2
    have hassoc : b * (2 * H) + H + j = b * (2 * H) + (H + j) := by omega
    have hbr : ¬ H + j < H := by omega
    rw [hassoc]
    simp [pointwiseKernelBwd1, hidx, hdiv, hmod, hbr, Nat.add_sub_cancel_left]
  · have hj2 : j < 2 * H := by omega
    have hidx := row_idx_lt hb hj2
    have hdiv := row_idx_div (b := b) hj2
    have hmod := row_idx_mod (b := b) hj2
    simp [pointwiseKernelBwd1, hidx, hdiv, hmod, hj]

/-- Witness for C3 at `activation = 0`, `B = H = 1`, `b = j = 0`. -/
theorem backward_step_order_and_slots_witness :
    (0 : ℕ) ≤ 3 ∧ (0 : ℕ) < 1 ∧
    (pointwiseKernelBwd1 (activationDeriv 0) 1 1 (fun _ => 5) (fun _ => 3)
        (fun _ => 2) (fun _ => 7) (fun _ => 0)).1 (0 * 1 + 0) =
      ((7 : ℝ) + 2) * 3 :=
  ⟨by norm_num, Nat.one_pos,
    (backward_step_order_and_slots 0 (by norm_num) 1 1 (fun _ => 0)
        (fun _ => 5) (fun _ => 3) (fun _ => 7) (fun _ => 2) (fun _ => 0) 0 0
        Nat.one_pos Nat.one_pos).2.1⟩

lemma sum_range_mul_decode (B T : ℕ) (F : ℕ → ℕ → ℝ) :
    ∑ k ∈ Finset.range (B * T), F (k / B) (k % B) =
      ∑ t ∈ Finset.range T, ∑ b ∈ Finset.range B, F t b := by
  induction T with
  | zero => simp
  | succ T ih =>
    have hsplit :
        ∑ k ∈ Finset.range (B * T + B), F (k / B) (k % B) =
          (∑ k ∈ Finset.range (B * T), F (k / B) (k % B)) +
            ∑ x ∈ Finset.range B, F ((B * T + x) / B) ((B * T + x) % B) :=
      Finset.sum_range_add (fun k => F (k / B) (k % B)) (B * T) B
    rw [Nat.mul_succ, hsplit, ih, Finset.sum_range_succ]
    congr 1
    apply Finset.sum_congr rfl
    intro x hx
    have hxB : x < B := Finset.mem_range.mp hx
    have hB : 0 < B := by omega
    have hd : (B * T + x) / B = T := by
      rw [Nat.add_comm, Nat.add_mul_div_left x T hB, Nat.div_eq_of_lt hxB,
        Nat.zero_add]
    have hm : (B * T + x) % B = x := by
      rw [Nat.add_comm, Nat.add_mul_mod_self_left, Nat.mod_eq_of_lt hxB]
    rw [hd, hm]

/-- C4: the sequence-wide recurrent-weight gradient `du`, computed by the
backward engine as one single GEMM over the flattened (time × batch)
axis, equals the sum over `t = 0 … T-1` of the per-step outer products
`dwx_t · h_t^T` (exact real arithmetic). -/
theorem du_reduction_equivalence :
    ∀ (B H T : ℕ) (dwx h : ℕ → ℕ → ℝ) (du : ℕ → ℝ),
      duGemm B H T dwx h du = duPerStepSum B H T dwx h du := by
  intro B H T dwx h du
  funext idx
  unfold duGemm duPerStepSum
  by_cases hidx : idx < H * (2 * H)
  · simp only [hidx, if_true]
    congr 1
    exact sum_range_mul_decode B T fun t b =>
      dwx t (b * (2 * H) + idx % (2 * H)) * h t (b * H + idx / (2 * H))
  · simp [hidx]

/-- C5 evidence: with `activation = 2` (sin) and `training = false`, the
forward dispatch of `ForwardPass::IterateInternal` launches no kernel, so
the step's output buffer keeps its previous contents (here pre-filled
with 1), whereas the `training = true` dispatch of the same activation
writes the gated value (0 on this input). -/
theorem forward_sin_inference_launches_nothing :
    (ligru_2_0_forward.IterateInternal id 2 false 1 1 (fun _ => 0)
        (fun _ => 0) (fun _ => 1) (fun _ => 0) (fun _ => 0) (fun _ => 0)).1 =
      (fun _ => (1 : ℝ)) ∧
    (ligru_2_0_forward.IterateInternal id 2 true 1 1 (fun _ => 0)
        (fun _ => 0) (fun _ => 1) (fun _ => 0) (fun _ => 0)
        (fun _ => 0)).1 0 = 0 := by
  constructor
  · rfl
  · simp [ligru_2_0_forward.IterateInternal,
      ligru_2_0_forward.PointwiseOperationsSin, pointwiseKernelFwd,
      ligru_2_0_forward.gemmUH, sigmoid_zero, Real.sin_zero]

lemma iterate_eval_cache (norm : (ℕ → ℝ) → ℕ → ℝ) (activation : ℕ)
    (B H : ℕ) (u h h_out v wx tmp_uh : ℕ → ℝ) :
    (ligru_2_0_forward.IterateInternal norm activation false B H u h h_out v
      wx tmp_uh).2 = v := by
  simp only [ligru_2_0_forward.IterateInternal]
  rw [if_neg Bool.false_ne_true]
  split_ifs <;> rfl

/-- C6: running the forward scan with `training = false` leaves every
element of the gate cache buffer `v` unchanged, for every activation
value, sequence length and input. -/
theorem forward_inference_cache_untouched :
    ∀ (norm : (ℕ → ℝ) → ℕ → ℝ) (activation B H T : ℕ) (wx : ℕ → ℕ → ℝ)
      (u : ℕ → ℝ) (tmp h v : ℕ → ℕ → ℝ),
      (ligru_2_0_forward.Run norm activation false B H T wx u tmp h v).2 = v := by
  intro norm activation B H T wx u tmp h v
  unfold ligru_2_0_forward.Run
  induction T with
  | zero => rfl
  | succ n ih =>
    simp only [ligru_2_0_forward.RunAux]
    rw [iterate_eval_cache, Function.update_eq_self]
    exact ih

lemma runAux_fst_untouched (norm : (ℕ → ℝ) → ℕ → ℝ) (activation : ℕ)
    (training : Bool) (B H : ℕ) (wx : ℕ → ℕ → ℝ) (u : ℕ → ℝ)
    (tmp h v : ℕ → ℕ → ℝ) :
    ∀ n j, j = 0 ∨ n < j →
      (ligru_2_0_forward.RunAux norm activation training B H wx u tmp h v
        n).1 j = h j := by
  intro n
  induction n with
  | zero => intro j _; rfl
  | succ n ih =>
    intro j hj
    simp only [ligru_2_0_forward.RunAux]
    rw [Function.update_noteq (by omega : j ≠ n + 1)]
    exact ih j (by omega)

lemma runAux_snd_untouched (norm : (ℕ → ℝ) → ℕ → ℝ) (activation : ℕ)
    (training : Bool) (B H : ℕ) (wx : ℕ → ℕ → ℝ) (u : ℕ → ℝ)
    (tmp h v : ℕ → ℕ → ℝ) :
    ∀ n j, n ≤ j →
      (ligru_2_0_forward.RunAux norm activation training B H wx u tmp h v
        n).2 j = v j := by
  intro n
  induction n with
  | zero => intro j _; rfl
  | succ n ih =>
    intro j hj
    simp only [ligru_2_0_forward.RunAux]
    rw [Function.update_noteq (by omega : j ≠ n)]
    exact ih j (by omega)

lemma runAux_fst_stable (norm : (ℕ → ℝ) → ℕ → ℝ) (activation : ℕ)
    (training : Bool) (B H : ℕ) (wx : ℕ → ℕ → ℝ) (u : ℕ → ℝ)
    (tmp h v : ℕ → ℕ → ℝ) :
    ∀ n m, m ≤ n →
      (ligru_2_0_forward.RunAux norm activation training B H wx u tmp h v
        n).1 m =
      (ligru_2_0_forward.RunAux norm activation training B H wx u tmp h v
        m).1 m := by
  intro n
  induction n with
  | zero =>
    intro m hm
    have hm0 : m = 0 := by omega
    subst hm0
    rfl
  | succ n ih =>
    intro m hm
    rcases Nat.eq_or_lt_of_le hm with heq | hlt
    · subst heq
      rfl
    · simp only [ligru_2_0_forward.RunAux]
      rw [Function.update_noteq (by omega : m ≠ n + 1)]
      exact ih m (by omega)

/-- C7: for all (T, B, H), the `ligru_1_0` forward entry returns a
hidden-state sequence with `T + 1` rows; row 0 equals the caller-supplied
`h_init` (copied before the scan starts), and row `t + 1` is the output
of step `t` — the gate kernel step applied to row `t` — for every
`t < T`. -/
theorem forward_sequence_shape :
    ∀ (training : Bool) (activation T B H : ℕ) (wx : ℕ → ℕ → ℝ)
      (h_init u : ℕ → ℝ) (out0 v0 tmp : ℕ → ℕ → ℝ),
      (h_sequence training activation T B H wx h_init u out0 v0
          tmp).length = T + 1 ∧
      (ligru_1_0_forward training activation T B H wx h_init u out0 v0
          tmp).1 0 = h_init ∧
      ∀ t, t < T →
        (ligru_1_0_forward training activation T B H wx h_init u out0 v0
            tmp).1 (t + 1) =
          (ligru_2_0_forward.IterateInternal id activation training B H u
            ((ligru_1_0_forward training activation T B H wx h_init u out0
              v0 tmp).1 t)
            (out0 (t + 1)) (v0 t) (wx t) (tmp t)).1 := by
  intro training activation T B H wx h_init u out0 v0 tmp
  refine ⟨?_, ?_, ?_⟩
  · simp [h_sequence]
  · unfold ligru_1_0_forward ligru_2_0_forward.Run
    rw [runAux_fst_untouched id activation training B H wx u tmp
      (Function.update out0 0 h_init) v0 T 0 (Or.inl rfl)]
    exact Function.update_same 0 h_init out0
  · intro t ht
    unfold ligru_1_0_forward ligru_2_0_forward.Run
    rw [runAux_fst_stable id activation training B H wx u tmp
      (Function.update out0 0 h_init) v0 T (t + 1) (by omega)]
    simp only [ligru_2_0_forward.RunAux]
    rw [Function.update_same]
    rw [runAux_fst_untouched id activation training B H wx u tmp
      (Function.update out0 0 h_init) v0 t (t + 1) (Or.inr (by omega))]
    rw [runAux_snd_untouched id activation training B H wx u tmp
      (Function.update out0 0 h_init) v0 t t le_rfl]
    rw [runAux_fst_stable id activation training B H wx u tmp
      (Function.update out0 0 h_init) v0 T t (by omega)]
    rw [Function.update_noteq (by omega : t + 1 ≠ 0)]

/-- Witness for C7 at `T = B = H = 1`, tanh activation, `t = 0`. -/
theorem forward_sequence_shape_witness :
    (h_sequence true 3 1 1 1 (fun _ _ => 0) (fun _ => 2) (fun _ => 0)
        (fun _ _ => 0) (fun _ _ => 0) (fun _ _ => 0)).length = 2 ∧
    (ligru_1_0_forward true 3 1 1 1 (fun _ _ => 0) (fun _ => 2) (fun _ => 0)
        (fun _ _ => 0) (fun _ _ => 0) (fun _ _ => 0)).1 0 = (fun _ => 2) ∧
    (0 : ℕ) < 1 ∧
    (ligru_1_0_forward true 3 1 1 1 (fun _ _ => 0) (fun _ => 2) (fun _ => 0)
        (fun _ _ => 0) (fun _ _ => 0) (fun _ _ => 0)).1 1 =
      (ligru_2_0_forward.IterateInternal id 3 true 1 1 (fun _ => 0)
        ((ligru_1_0_forward true 3 1 1 1 (fun _ _ => 0) (fun _ => 2)
          (fun _ => 0) (fun _ _ => 0) (fun _ _ => 0) (fun _ _ => 0)).1 0)
        (fun _ => 0) (fun _ => 0) (fun _ => 0) (fun _ => 0)).1 := by
  obtain ⟨ha, hb, hc⟩ := forward_sequence_shape true 3 1 1 1 (fun _ _ => 0)
    (fun _ => 2) (fun _ => 0) (fun _ _ => 0) (fun _ _ => 0) (fun _ _ => 0)
  exact ⟨ha, hb, Nat.one_pos, hc 0 Nat.one_pos⟩

/-- C8 counterexample: in the `ligru_2_0` forward engine, step 1 does not
reuse the `[B, 2H]` scratch region used by step 0 (here with
`B = H = 1`): the slice handed to step `i` is `tmp_uh + i * NH * 2`, so
the claim that every step reads and writes the same `[B, 2H]` region is
false. -/
theorem tmp_uh_region_not_shared :
    ¬ tmp_uh_region 1 1 1 = tmp_uh_region 1 1 0 := by decide

lemma tmp_uh_region_disjoint_of_lt (B H i j : ℕ) (hij : i < j) :
    Disjoint (tmp_uh_region B H i) (tmp_uh_region B H j) := by
  rw [Finset.disjoint_left]
  intro x hxi hxj
  rw [tmp_uh_region, Finset.mem_Ico] at hxi hxj
  have h1 : i * (B * H * 2) + B * (2 * H) ≤ j * (B * H * 2) := by
    have h2 : (i + 1) * (B * H * 2) ≤ j * (B * H * 2) :=
      Nat.mul_le_mul_right (B * H * 2) hij
    have h3 : (i + 1) * (B * H * 2) = i * (B * H * 2) + B * (2 * H) := by
      ring
    omega
  omega

/-- C8 amended: in the `ligru_2_0` forward engine, `tmp_uh` is a
per-step-sliced `[T, B, 2H]` buffer, not a single reused `[B, 2H]`
scratch: step `i` touches exactly the `B * 2H` flat offsets starting at
`i * B * H * 2`, and distinct steps touch disjoint regions.  (The single
shared `[B, 2H]` scratch described by the claim is what the `ligru_1_0`
binding allocates, `ligru.cc` line 34.) -/
theorem tmp_uh_region_per_step :
    ∀ B H i j : ℕ, i ≠ j →
      tmp_uh_region B H i =
        Finset.Ico (i * (B * H * 2)) (i * (B * H * 2) + B * (2 * H)) ∧
      Disjoint (tmp_uh_region B H i) (tmp_uh_region B H j) := by
  intro B H i j hij
  refine ⟨rfl, ?_⟩
  rcases Nat.lt_or_ge i j with hlt | hge
  · exact tmp_uh_region_disjoint_of_lt B H i j hlt
  · exact (tmp_uh_region_disjoint_of_lt B H j i (by omega)).symm

/-- Witness for C8 amended at `B = H = 1`, `i = 0`, `j = 1`. -/
theorem tmp_uh_region_per_step_witness :
    (0 : ℕ) ≠ 1 ∧
    (tmp_uh_region 1 1 0 = Finset.Ico 0 2 ∧
      Disjoint (tmp_uh_region 1 1 0) (tmp_uh_region 1 1 1)) :=
  ⟨by decide, tmp_uh_region_per_step 1 1 0 1 (by decide)⟩

/-- C9: invoking any of the four half-precision backward gate kernels on
an accelerator of compute capability below 7.0 yields the hard device
abort (`device_assert_fail` with the FP16 message) and never a computed
result. -/
theorem half_precision_low_arch_aborts :
    ∀ arch : ℕ, arch < 700 →
    ∀ (B H : ℕ) (h v dh_prev grad_out dwx : ℕ → ℝ),
      ligru_1_0_backward.PointwiseOperationsReLUHalf arch B H h v dh_prev
          grad_out dwx =
        Except.error "FP16 is not supported on compute capability < 7.0." ∧
      ligru_1_0_backward.PointwiseOperationsLeakyReLUHalf arch B H h v
          dh_prev grad_out dwx =
        Except.error "FP16 is not supported on compute capability < 7.0." ∧
      ligru_1_0_backward.PointwiseOperationsTanhHalf arch B H h v dh_prev
          grad_out dwx =
        Except.error "FP16 is not supported on compute capability < 7.0." ∧
      ligru_1_0_backward.PointwiseOperationsSinHalf arch B H h v dh_prev
          grad_out dwx =
        Except.error "FP16 is not supported on compute capability < 7.0." := by
  intro arch harch B H h v dh_prev grad_out dwx
  refine ⟨?_, ?_, ?_, ?_⟩ <;>
    simp [ligru_1_0_backward.PointwiseOperationsReLUHalf,
      ligru_1_0_backward.PointwiseOperationsLeakyReLUHalf,
      ligru_1_0_backward.PointwiseOperationsTanhHalf,
      ligru_1_0_backward.PointwiseOperationsSinHalf, harch]

/-- Witness for C9 at `arch = 600`, `B = H = 1`. -/
theorem half_precision_low_arch_aborts_witness :
    (600 : ℕ) < 700 ∧
    ligru_1_0_backward.PointwiseOperationsReLUHalf 600 1 1 (fun _ => 0)
        (fun _ => 0) (fun _ => 0) (fun _ => 0) (fun _ => 0) =
      Except.error "FP16 is not supported on compute capability < 7.0." :=
  ⟨by norm_num,
    (half_precision_low_arch_aborts 600 (by norm_num) 1 1 (fun _ => 0)
      (fun _ => 0) (fun _ => 0) (fun _ => 0) (fun _ => 0)).1⟩

/-- C10: the backward entry never reads row 0 of `grad_out` — the reverse
scan reads row `i + 1` for step `i`, i.e. rows `1 … T` only — so two
backward runs on inputs that differ only in row 0 of `grad_out` return
identical `du`, `dwx` and `dh_initial`. -/
theorem backward_ignores_grad_out_row_zero :
    ∀ (activation B H T : ℕ) (u : ℕ → ℝ) (h v : ℕ → ℕ → ℝ)
      (go1 go2 : ℕ → ℕ → ℝ) (dwx0 : ℕ → ℕ → ℝ) (du0 dh0 : ℕ → ℝ),
      (∀ r, 1 ≤ r → go1 r = go2 r) →
      ligru_1_0_backward.Run activation B H T u h v go1 dwx0 du0 dh0 =
        ligru_1_0_backward.Run activation B H T u h v go2 dwx0 du0 dh0 := by
  intro activation B H T u h v go1 go2 dwx0 du0 dh0 hgo
  have aux : ∀ n, BackRunAux activation B H T u h v go1 dwx0 dh0 n =
      BackRunAux activation B H T u h v go2 dwx0 dh0 n := by
    intro n
    induction n with
    | zero => rfl
    | succ n ih =>
      simp only [BackRunAux]
      rw [ih, hgo (T - 1 - n + 1) (by omega)]
  unfold ligru_1_0_backward.Run
  rw [aux T]

/-- Witness for C10 at `T = B = H = 1`, tanh activation, with two
`grad_out` buffers that differ exactly in row 0. -/
theorem backward_ignores_grad_out_row_zero_witness :
    (∀ r : ℕ, 1 ≤ r →
      (fun _ : ℕ => if r = 0 then (1 : ℝ) else 0) =
        (fun _ : ℕ => if r = 0 then (2 : ℝ) else 0)) ∧
    ligru_1_0_backward.Run 3 1 1 1 (fun _ => 0) (fun _ _ => 0)
        (fun _ _ => 0) (fun r _ => if r = 0 then (1 : ℝ) else 0)
        (fun _ _ => 0) (fun _ => 0) (fun _ => 0) =
      ligru_1_0_backward.Run 3 1 1 1 (fun _ => 0) (fun _ _ => 0)
        (fun _ _ => 0) (fun r _ => if r = 0 then (2 : ℝ) else 0)
        (fun _ _ => 0) (fun _ => 0) (fun _ => 0) :=
  have hgo : ∀ r : ℕ, 1 ≤ r →
      (fun _ : ℕ => if r = 0 then (1 : ℝ) else 0) =
        (fun _ : ℕ => if r = 0 then (2 : ℝ) else 0) := fun r hr => by
    funext i
    rw [if_neg (by omega), if_neg (by omega)]
  ⟨hgo, backward_ignores_grad_out_row_zero 3 1 1 1 (fun _ => 0)
    (fun _ _ => 0) (fun _ _ => 0) (fun r _ => if r = 0 then (1 : ℝ) else 0)
    (fun r _ => if r = 0 then (2 : ℝ) else 0) (fun _ _ => 0) (fun _ => 0)
    (fun _ => 0) hgo⟩

/-- Witness for C1 at `B = H = 1`, `b = j = 0`, tanh activation. -/
theorem forward_gate_kernel_formula_witness :
    (0 : ℕ) < 1 ∧
    (pointwiseKernelFwd Real.tanh true 1 1 (fun _ => 0) (fun _ => 0)
        (fun _ => 2) (fun _ => 5) (fun _ => 7)).1 (0 * 1 + 0) =
      sigmoid (0 + 0) * 2 + (1 - sigmoid (0 + 0)) * Real.tanh (0 + 0) :=
  ⟨Nat.one_pos,
    forward_gate_kernel_formula.1 Real.tanh true 1 1 (fun _ => 0) (fun _ => 0)
      (fun _ => 2) (fun _ => 5) (fun _ => 7) 0 0 Nat.one_pos Nat.one_pos⟩

end
